import Mathlib

/-!
Verification of the gocstat container-statistics library.

The Go sources are shallowly embedded here: the pure text parsers become
Lean functions over `String`/`List String`, the stats store becomes an
association list from container id to its entry, and the filesystem /
regular-expression matcher (external collaborators) become explicit
function parameters.  Machine `uint64` values are modelled as `Nat` with
the `strconv.ParseUint` range behaviour made explicit.  Wall-clock
timestamps (`time.Now()`) are modelled by an explicit `now : Nat`
argument.  The Go standard-library string helpers (`strings.Split`,
`strings.Fields`, `strconv.ParseUint`) are modelled by structurally
recursive functions over the character list of a `String`, so that every
definition evaluates inside the kernel.
-/

namespace Gocstat

/-- Model of Go `unicode.IsSpace` restricted to the Latin-1 characters
that can occur in cgroup pseudo-file lines (space, tab, newline,
vertical tab, form feed, carriage return).  The exotic Unicode space
code points accepted by Go never occur in the inputs the claims
quantify over. -/
def goIsSpace (c : Char) : Bool :=
  c = ' ' || c = '\t' || c = '\n' || c = '\x0b' || c = '\x0c' || c = '\r'

/-- Helper for `goFields`: scan the characters, collecting the current
field in reverse in `cur`, emitting it at each whitespace run. -/
def fieldsAux : List Char → List Char → List (List Char)
  | [], cur => if cur.isEmpty then [] else [cur.reverse]
  | c :: cs, cur =>
      if goIsSpace c then
        if cur.isEmpty then fieldsAux cs [] else cur.reverse :: fieldsAux cs []
      else fieldsAux cs (c :: cur)

/-- Model of Go `strings.Fields`: split around runs of whitespace,
dropping empty fields. -/
def goFields (s : String) : List String :=
  (fieldsAux s.data []).map (fun l => ⟨l⟩)

/-- Helper for `goSplitCh`: split a character list at every occurrence
of the separator, keeping empty segments (like `strings.Split`). -/
def splitChAux : List Char → Char → List Char → List (List Char)
  | [], _, cur => [cur.reverse]
  | c :: cs, sep, cur =>
      if c = sep then cur.reverse :: splitChAux cs sep []
      else splitChAux cs sep (c :: cur)

/-- Model of Go `strings.Split(s, sep)` for a one-character separator
(the source only splits on `"\n"` and `":"`). -/
def goSplitCh (s : String) (sep : Char) : List String :=
  (splitChAux s.data sep []).map (fun l => ⟨l⟩)

/-- Decimal value of a digit string. -/
def digitsToNat (l : List Char) : Nat :=
  l.foldl (fun a c => 10 * a + (c.toNat - '0'.toNat)) 0

/-- Model of Go `strconv.ParseUint(s, 10, 64)` with the error discarded
(as the source does with `v, _ = strconv.ParseUint(...)`): a syntax
error (empty string or a non-digit character) yields 0, a range error
yields `MaxUint64`. -/
def goParseUint (s : String) : Nat :=
  if s.data.isEmpty || !(s.data.all Char.isDigit) then 0
  else if digitsToNat s.data < 2 ^ 64 then digitsToNat s.data else 2 ^ 64 - 1

/-! ## Block-I/O parser

Embedding of the current `BlkServiced.create` / `BlkDevice.create`
variant (the one whose group buffer is a `[]string` and whose group
boundary test is `deviceStr != lastDeviceStr && i > 0`). -/

/-- Go struct `BlkDevice`: per-device counters. -/
structure BlkDevice where
  Major : Nat
  Minor : Nat
  Read : Nat
  Write : Nat
  Sync : Nat
  Async : Nat
deriving DecidableEq, Repr

/-- The zero value `BlkDevice{}`. -/
def BlkDevice.zero : BlkDevice :=
  { Major := 0, Minor := 0, Read := 0, Write := 0, Sync := 0, Async := 0 }

/-- One iteration of the loop body of `BlkDevice.create`: process one
line of a device group.  Go guards with `len(fields) != 3 { continue }`
and then indexes `fields[0..2]`; here that is a match on the
three-element field list. -/
def BlkDevice.step (b : BlkDevice) (line : String) : BlkDevice :=
  match goFields line with
  | [deviceStr, op, unit] =>
      let device := goSplitCh deviceStr ':'
      let b :=
        if device.length > 1 then
          { b with Major := goParseUint (device.getD 0 "")
                   Minor := goParseUint (device.getD 1 "") }
        else b
      if op = "Read" then { b with Read := goParseUint unit }
      else if op = "Write" then { b with Write := goParseUint unit }
      else if op = "Sync" then { b with Sync := goParseUint unit }
      else if op = "Async" then { b with Async := goParseUint unit }
      else b
  | _ => b

/-- Go method `(b *BlkDevice) create(lines []string)`: fold the loop
body over the group's lines, starting from the zero value the caller
allocates with `BlkDevice{}`. -/
def BlkDevice.create (lines : List String) : BlkDevice :=
  lines.foldl BlkDevice.step BlkDevice.zero

/-- Go struct `BlkServiced` (path binding, timestamp, parsed devices). -/
structure BlkServiced where
  path : String
  Timestamp : Nat
  Devices : List BlkDevice
deriving DecidableEq, Repr

/-- The scanning loop of `BlkServiced.create`, with its loop state made
explicit: remaining `lines`, current index `i`, `lastDeviceStr`, the
accumulated group `tmpContent` and the devices emitted so far. -/
def BlkServiced.loop : List String → Nat → String → List String → List BlkDevice → List BlkDevice
  | [], _, _, tmp, acc =>
      if tmp.isEmpty then acc else acc ++ [BlkDevice.create tmp]
  | line :: rest, i, last, tmp, acc =>
      match goFields line with
      | [deviceStr, _, _] =>
          if deviceStr ≠ last ∧ 0 < i then
            BlkServiced.loop rest (i + 1) deviceStr [line] (acc ++ [BlkDevice.create tmp])
          else
            BlkServiced.loop rest (i + 1) deviceStr (tmp ++ [line]) acc
      | _ => BlkServiced.loop rest (i + 1) last tmp acc

/-- Go method `(b *BlkServiced) create(content string)`: stamp the
record, split the content on newlines and run the grouping scan with an
empty initial state. -/
def BlkServiced.create (b : BlkServiced) (now : Nat) (content : String) : BlkServiced :=
  { b with Timestamp := now
           Devices := BlkServiced.loop (goSplitCh content '\n') 0 "" [] [] }

/-! ## Well-formed device blocks

A `DevBlock` describes one device's contiguous block of four operation
rows inside a block-I/O file, as the ambient claims quantify over it:
the raw line strings together with the device identifier and the value
strings that their whitespace fields decompose into. -/

structure DevBlock where
  dev : String
  l1 : String
  l2 : String
  l3 : String
  l4 : String
  vr : String
  vw : String
  vs : String
  va : String

/-- The block is well formed: its four raw lines split into exactly the
device field, the literal operation label and the value field. -/
def DevBlock.wf (b : DevBlock) : Prop :=
  goFields b.l1 = [b.dev, "Read", b.vr] ∧
  goFields b.l2 = [b.dev, "Write", b.vw] ∧
  goFields b.l3 = [b.dev, "Sync", b.vs] ∧
  goFields b.l4 = [b.dev, "Async", b.va]

instance DevBlock.wfDecidable (b : DevBlock) : Decidable b.wf :=
  inferInstanceAs (Decidable (goFields b.l1 = [b.dev, "Read", b.vr] ∧
    goFields b.l2 = [b.dev, "Write", b.vw] ∧
    goFields b.l3 = [b.dev, "Sync", b.vs] ∧
    goFields b.l4 = [b.dev, "Async", b.va]))

/-- The raw lines of the block, in file order. -/
def DevBlock.lines (b : DevBlock) : List String := [b.l1, b.l2, b.l3, b.l4]

/-- The `BlkDevice` record the parser is expected to produce for this
block: major/minor from splitting the device field on `:`, the four
counters from parsing the respective value fields. -/
def DevBlock.record (b : DevBlock) : BlkDevice :=
  let device := goSplitCh b.dev ':'
  { Major := if device.length > 1 then goParseUint (device.getD 0 "") else 0
    Minor := if device.length > 1 then goParseUint (device.getD 1 "") else 0
    Read := goParseUint b.vr
    Write := goParseUint b.vw
    Sync := goParseUint b.vs
    Async := goParseUint b.va }

theorem fieldsAux_ne_nil : ∀ (cs cur : List Char), ∀ l ∈ fieldsAux cs cur, l ≠ [] := by
  intro cs
  induction cs with
  | nil =>
      intro cur l hl
      by_cases hc : cur.isEmpty <;> simp [fieldsAux, hc] at hl
      · subst hl
        simp only [ne_eq, List.reverse_eq_nil_iff]
        intro h
        exact (by simp [h] : cur.isEmpty = true) |> (by simp [hc] : ¬cur.isEmpty = true)
  | cons c cs ih =>
      intro cur l hl
      by_cases hsp : goIsSpace c
      · by_cases hc : cur.isEmpty
        · simp [fieldsAux, hsp, hc] at hl
          exact ih [] l hl
        · simp [fieldsAux, hsp, hc] at hl
          rcases hl with h | h
          · subst h
            simp only [ne_eq, List.reverse_eq_nil_iff]
            intro h
            exact (by simp [h] : cur.isEmpty = true) |> (by simp [hc] : ¬cur.isEmpty = true)
          · exact ih [] l h
      · simp [fieldsAux, hsp] at hl
        exact ih (c :: cur) l hl

/-- `strings.Fields` never yields an empty field, so the device field of
a well-formed row is a nonempty string. -/
theorem mem_goFields_ne_empty {s t : String} (h : t ∈ goFields s) : t ≠ "" := by
  simp only [goFields, List.mem_map] at h
  obtain ⟨l, hl, rfl⟩ := h
  have := fieldsAux_ne_nil s.data [] l hl
  intro hcon
  exact this (congrArg String.data hcon)

theorem DevBlock.dev_ne_empty {b : DevBlock} (hw : b.wf) : b.dev ≠ "" :=
  mem_goFields_ne_empty (s := b.l1) (by simp [hw.1])

/-- Feeding a well-formed block's four lines to `BlkDevice.create`
produces exactly the expected record. -/
theorem BlkDevice.create_of_wf (b : DevBlock) (hw : b.wf) :
    BlkDevice.create b.lines = b.record := by
  obtain ⟨h1, h2, h3, h4⟩ := hw
  by_cases hd : (goSplitCh b.dev ':').length > 1 <;>
    simp [BlkDevice.create, DevBlock.lines, BlkDevice.step, DevBlock.record,
      BlkDevice.zero, h1, h2, h3, h4, hd]

/-- Unfolding the scan at a line with a field count other than three:
the line is skipped, advancing only the index. -/
theorem BlkServiced.loop_cons_invalid {line : String}
    (h : (goFields line).length ≠ 3) (rest : List String) (i : Nat)
    (last : String) (tmp : List String) (acc : List BlkDevice) :
    BlkServiced.loop (line :: rest) i last tmp acc
      = BlkServiced.loop rest (i + 1) last tmp acc := by
  rcases hl : goFields line with _ | ⟨a, _ | ⟨b, _ | ⟨c, _ | ⟨d, t⟩⟩⟩⟩ <;>
    first
      | (rw [hl] at h; exact absurd rfl h)
      | simp [BlkServiced.loop, hl]

/-- Unfolding the scan at a valid line whose device field differs from
the previous one, at a positive index: the group is flushed. -/
theorem BlkServiced.loop_cons_flush {line dev op v : String}
    (h : goFields line = [dev, op, v]) {last : String} (hne : dev ≠ last)
    (rest : List String) {i : Nat} (hi : 0 < i) (tmp : List String)
    (acc : List BlkDevice) :
    BlkServiced.loop (line :: rest) i last tmp acc
      = BlkServiced.loop rest (i + 1) dev [line] (acc ++ [BlkDevice.create tmp]) := by
  simp only [BlkServiced.loop, h]
  rw [if_pos ⟨hne, hi⟩]

/-- Unfolding the scan at a valid line that does not flush (same device
as the previous line, or the very first line): the line joins the
current group. -/
theorem BlkServiced.loop_cons_cont {line dev op v : String}
    (h : goFields line = [dev, op, v]) {last : String} {i : Nat}
    (hcond : ¬(dev ≠ last ∧ 0 < i)) (rest : List String) (tmp : List String)
    (acc : List BlkDevice) :
    BlkServiced.loop (line :: rest) i last tmp acc
      = BlkServiced.loop rest (i + 1) dev (tmp ++ [line]) acc := by
  simp only [BlkServiced.loop, h]
  rw [if_neg hcond]

/-- Lines with a field count other than three are skipped, advancing
only the line index. -/
theorem BlkServiced.loop_skip (pre : List String)
    (h : ∀ l ∈ pre, (goFields l).length ≠ 3) :
    ∀ (rest : List String) (i : Nat) (last : String) (tmp : List String)
      (acc : List BlkDevice),
      BlkServiced.loop (pre ++ rest) i last tmp acc
        = BlkServiced.loop rest (i + pre.length) last tmp acc := by
  induction pre with
  | nil => intro rest i last tmp acc; simp
  | cons l pre ih =>
      intro rest i last tmp acc
      have hl : (goFields l).length ≠ 3 := h l (by simp)
      have hrest : ∀ x ∈ pre, (goFields x).length ≠ 3 := fun x hx => h x (by simp [hx])
      rw [List.cons_append, BlkServiced.loop_cons_invalid hl, ih hrest]
      congr 1
      simp only [List.length_cons]
      omega

/-- Rows two to four of a block keep extending the current group. -/
theorem BlkServiced.loop_tail3 (b : DevBlock) (hw : b.wf) :
    ∀ (rest : List String) (i : Nat) (tmp : List String) (acc : List BlkDevice),
      BlkServiced.loop (b.l2 :: b.l3 :: b.l4 :: rest) i b.dev tmp acc
        = BlkServiced.loop rest (i + 3) b.dev (tmp ++ [b.l2, b.l3, b.l4]) acc := by
  obtain ⟨h1, h2, h3, h4⟩ := hw
  intro rest i tmp acc
  rw [BlkServiced.loop_cons_cont h2 (by simp),
      BlkServiced.loop_cons_cont h3 (by simp),
      BlkServiced.loop_cons_cont h4 (by simp)]
  simp [List.append_assoc]

/-- The first row of a block at a positive line index closes the
accumulated group — whatever it contains — and opens the new group. -/
theorem BlkServiced.loop_block_flush (b : DevBlock) (hw : b.wf) (last : String)
    (hne : b.dev ≠ last) :
    ∀ (rest : List String) (i : Nat) (tmp : List String) (acc : List BlkDevice),
      0 < i →
      BlkServiced.loop (b.lines ++ rest) i last tmp acc
        = BlkServiced.loop rest (i + 4) b.dev b.lines (acc ++ [BlkDevice.create tmp]) := by
  intro rest i tmp acc hi
  simp only [DevBlock.lines, List.cons_append, List.nil_append]
  rw [BlkServiced.loop_cons_flush hw.1 hne _ hi,
      BlkServiced.loop_tail3 b hw]
  simp [DevBlock.lines]

/-- The very first row of the file (index zero) never flushes: it only
opens the first group. -/
theorem BlkServiced.loop_block_first (b : DevBlock) (hw : b.wf) :
    ∀ (rest : List String) (acc : List BlkDevice),
      BlkServiced.loop (b.lines ++ rest) 0 "" [] acc
        = BlkServiced.loop rest 4 b.dev b.lines acc := by
  intro rest acc
  simp only [DevBlock.lines, List.cons_append, List.nil_append]
  rw [BlkServiced.loop_cons_cont hw.1 (by simp),
      BlkServiced.loop_tail3 b hw]
  simp [DevBlock.lines]

/-- Steady state of the scan: with the previous block fully accumulated
in the group buffer, the remaining blocks produce exactly one record
each, plus the flush of the trailing group. -/
theorem BlkServiced.loop_blocks :
    ∀ (bs : List DevBlock) (pb : DevBlock), pb.wf → (∀ x ∈ bs, x.wf) →
      List.Chain' (fun x y => x.dev ≠ y.dev) (pb :: bs) →
      ∀ (i : Nat) (acc : List BlkDevice), 0 < i →
        BlkServiced.loop ((bs.map DevBlock.lines).flatten) i pb.dev pb.lines acc
          = acc ++ pb.record :: bs.map DevBlock.record := by
  intro bs
  induction bs with
  | nil =>
      intro pb hpb _ _ i acc _
      simp only [List.map_nil, List.flatten_nil, BlkServiced.loop]
      rw [if_neg (by simp [DevBlock.lines])]
      rw [BlkDevice.create_of_wf pb hpb]
  | cons b bs ih =>
      intro pb hpb hwf hch i acc hi
      have hbw : b.wf := hwf b (by simp)
      have hne : b.dev ≠ pb.dev := Ne.symm (List.chain'_cons.mp hch).1
      simp only [List.map_cons, List.flatten_cons]
      rw [BlkServiced.loop_block_flush b hbw pb.dev hne _ i pb.lines acc hi]
      rw [BlkDevice.create_of_wf pb hpb]
      rw [ih b hbw (fun x hx => hwf x (by simp [hx])) (List.chain'_cons.mp hch).2
        (i + 4) (acc ++ [pb.record]) (by omega)]
      simp

/-- Processing one line whose first field contains no colon leaves the
major and minor numbers untouched. -/
theorem BlkDevice.step_major_minor (b : BlkDevice) (line : String)
    (h : (goSplitCh ((goFields line).getD 0 "") ':').length = 1) :
    (BlkDevice.step b line).Major = b.Major ∧ (BlkDevice.step b line).Minor = b.Minor := by
  rcases hl : goFields line with _ | ⟨a, _ | ⟨b', _ | ⟨c, _ | ⟨d, t⟩⟩⟩⟩
  · simp [BlkDevice.step, hl]
  · simp [BlkDevice.step, hl]
  · simp [BlkDevice.step, hl]
  · rw [hl, List.getD_cons_zero] at h
    simp only [BlkDevice.step, hl]
    split_ifs <;> first | omega | simp
  · simp [BlkDevice.step, hl]

theorem BlkDevice.foldl_major_minor :
    ∀ (lines : List String) (b : BlkDevice),
      (∀ l ∈ lines, (goSplitCh ((goFields l).getD 0 "") ':').length = 1) →
      (lines.foldl BlkDevice.step b).Major = b.Major ∧
        (lines.foldl BlkDevice.step b).Minor = b.Minor := by
  intro lines
  induction lines with
  | nil => intro b _; exact ⟨rfl, rfl⟩
  | cons l lines ih =>
      intro b h
      have hl := BlkDevice.step_major_minor b l (h l (by simp))
      have := ih (BlkDevice.step b l) (fun x hx => h x (by simp [hx]))
      simp only [List.foldl_cons]
      exact ⟨this.1.trans hl.1, this.2.trans hl.2⟩

/-- C1.  For block-I/O content consisting of N devices with four
operation rows each (Read, Write, Sync, Async) in contiguous per-device
blocks, `BlkServiced.create` produces exactly N `BlkDevice` records
whose Read/Write/Sync/Async fields hold the parsed value of the
corresponding operation row of the device's block; and a row carrying an
unrecognized operation label changes no field of the record being
accumulated (its major/minor assignment rewrites the values the rest of
the block already determines). -/
theorem claim_C1 :
    (∀ (st : BlkServiced) (now : Nat) (content : String) (bs : List DevBlock),
       bs ≠ [] → (∀ b ∈ bs, b.wf) →
       List.Chain' (fun x y => x.dev ≠ y.dev) bs →
       goSplitCh content '\n' = (bs.map DevBlock.lines).flatten →
       (BlkServiced.create st now content).Devices = bs.map DevBlock.record ∧
         (BlkServiced.create st now content).Devices.length = bs.length)
    ∧
    (∀ (b : BlkDevice) (line dev op v : String),
       goFields line = [dev, op, v] →
       op ∉ (["Read", "Write", "Sync", "Async"] : List String) →
       ((goSplitCh dev ':').length ≤ 1 ∨
         (goParseUint ((goSplitCh dev ':').getD 0 "") = b.Major ∧
          goParseUint ((goSplitCh dev ':').getD 1 "") = b.Minor)) →
       BlkDevice.step b line = b) := by
  constructor
  · intro st now content bs hne hwf hch hsplit
    obtain ⟨b0, bs', rfl⟩ : ∃ b0 bs', bs = b0 :: bs' := by
      cases bs with
      | nil => exact absurd rfl hne
      | cons b0 bs' => exact ⟨b0, bs', rfl⟩
    have hb0 : b0.wf := hwf b0 (by simp)
    constructor
    · show BlkServiced.loop (goSplitCh content '\n') 0 "" [] [] = _
      rw [hsplit, List.map_cons, List.flatten_cons,
        BlkServiced.loop_block_first b0 hb0,
        BlkServiced.loop_blocks bs' b0 hb0 (fun x hx => hwf x (by simp [hx])) hch 4 []
          (by omega)]
      simp
    · show (BlkServiced.loop (goSplitCh content '\n') 0 "" [] []).length = _
      rw [hsplit, List.map_cons, List.flatten_cons,
        BlkServiced.loop_block_first b0 hb0,
        BlkServiced.loop_blocks bs' b0 hb0 (fun x hx => hwf x (by simp [hx])) hch 4 []
          (by omega)]
      simp
  · intro b line dev op v h hop hdev
    have hR : op ≠ "Read" := fun e => hop (by simp [e])
    have hW : op ≠ "Write" := fun e => hop (by simp [e])
    have hS : op ≠ "Sync" := fun e => hop (by simp [e])
    have hA : op ≠ "Async" := fun e => hop (by simp [e])
    simp only [BlkDevice.step, h]
    simp only [hR, hW, hS, hA, if_false, ite_false]
    rcases hdev with hle | ⟨hmaj, hmin⟩
    · rw [if_neg (by omega)]
    · by_cases hlen : (goSplitCh dev ':').length > 1
      · rw [if_pos hlen, hmaj, hmin]
      · rw [if_neg hlen]

/-- Witness for C1 at a concrete two-device file and a concrete
unrecognized-label row. -/
theorem claim_C1_witness :
    (BlkServiced.create ⟨"", 0, []⟩ 7
        "8:0 Read 1\n8:0 Write 2\n8:0 Sync 3\n8:0 Async 4\n9:1 Read 10\n9:1 Write 20\n9:1 Sync 30\n9:1 Async 40").Devices
      = [⟨8, 0, 1, 2, 3, 4⟩, ⟨9, 1, 10, 20, 30, 40⟩] ∧
    BlkDevice.step ⟨8, 0, 1, 2, 3, 4⟩ "8:0 Total 99" = ⟨8, 0, 1, 2, 3, 4⟩ := by
  constructor
  · have h := (claim_C1.1 ⟨"", 0, []⟩ 7
      "8:0 Read 1\n8:0 Write 2\n8:0 Sync 3\n8:0 Async 4\n9:1 Read 10\n9:1 Write 20\n9:1 Sync 30\n9:1 Async 40"
      [⟨"8:0", "8:0 Read 1", "8:0 Write 2", "8:0 Sync 3", "8:0 Async 4", "1", "2", "3", "4"⟩,
       ⟨"9:1", "9:1 Read 10", "9:1 Write 20", "9:1 Sync 30", "9:1 Async 40", "10", "20", "30", "40"⟩]
      (by simp) (by decide)
      (List.chain'_cons.mpr ⟨by decide, List.chain'_singleton _⟩) (by decide)).1
    rw [h]
    decide
  · exact claim_C1.2 ⟨8, 0, 1, 2, 3, 4⟩ "8:0 Total 99" "8:0" "Total" "99"
      (by decide) (by decide) (Or.inr (by decide))

/-- C5 counterexample.  The content `"x\n8:0 Read 5"` has rows for a
single device only (the first line is malformed and belongs to no
group), yet the parser emits two records: when the device field first
changes at line index 1 it flushes the still-empty group buffer and
produces the all-zero record.  This refutes "it closes the accumulated
group ... only if that group is non-empty" and "no BlkDevice record is
ever produced from an empty group". -/
theorem claim_C5_counterexample :
    (BlkServiced.create ⟨"", 0, []⟩ 0 "x\n8:0 Read 5").Devices
      = [BlkDevice.zero, { Major := 8, Minor := 0, Read := 5, Write := 0, Sync := 0, Async := 0 }] := by
  decide

/-- C5 amended.  When the device field changes at a positive line
index, `BlkServiced.create` closes the accumulated group regardless of
whether it is empty, so malformed lines before the first device block
yield one spurious all-zero record in front of the per-device records;
the trailing group is flushed after the scan only when non-empty (a
file with no valid row produces no record at all). -/
theorem claim_C5 :
    (∀ (st : BlkServiced) (now : Nat) (content : String) (pre : List String)
       (bs : List DevBlock),
       pre ≠ [] → (∀ l ∈ pre, (goFields l).length ≠ 3) →
       bs ≠ [] → (∀ b ∈ bs, b.wf) →
       List.Chain' (fun x y => x.dev ≠ y.dev) bs →
       goSplitCh content '\n' = pre ++ (bs.map DevBlock.lines).flatten →
       (BlkServiced.create st now content).Devices
         = BlkDevice.zero :: bs.map DevBlock.record)
    ∧
    (∀ (st : BlkServiced) (now : Nat) (content : String),
       (∀ l ∈ goSplitCh content '\n', (goFields l).length ≠ 3) →
       (BlkServiced.create st now content).Devices = []) := by
  constructor
  · intro st now content pre bs hpre hprebad hne hwf hch hsplit
    obtain ⟨b0, bs', rfl⟩ : ∃ b0 bs', bs = b0 :: bs' := by
      cases bs with
      | nil => exact absurd rfl hne
      | cons b0 bs' => exact ⟨b0, bs', rfl⟩
    have hb0 : b0.wf := hwf b0 (by simp)
    have hlen : 0 < pre.length := List.length_pos.mpr hpre
    show BlkServiced.loop (goSplitCh content '\n') 0 "" [] [] = _
    rw [hsplit, BlkServiced.loop_skip pre hprebad, List.map_cons, List.flatten_cons,
      BlkServiced.loop_block_flush b0 hb0 "" (DevBlock.dev_ne_empty hb0) _ _ _ _
        (by omega),
      BlkServiced.loop_blocks bs' b0 hb0 (fun x hx => hwf x (by simp [hx])) hch _ _
        (by omega)]
    rfl
  · intro st now content h
    show BlkServiced.loop (goSplitCh content '\n') 0 "" [] [] = _
    rw [← List.append_nil (goSplitCh content '\n'),
      BlkServiced.loop_skip _ h]
    rfl

/-- Witness for the amended C5: one malformed leading line followed by
one full device block yields the zero record plus the device record; a
file of malformed lines yields no record. -/
theorem claim_C5_witness :
    (BlkServiced.create ⟨"", 0, []⟩ 0
        "junk\n8:0 Read 1\n8:0 Write 2\n8:0 Sync 3\n8:0 Async 4").Devices
      = [BlkDevice.zero, ⟨8, 0, 1, 2, 3, 4⟩] ∧
    (BlkServiced.create ⟨"", 0, []⟩ 0 "a b\nc").Devices = [] := by
  constructor
  · have h := claim_C5.1 ⟨"", 0, []⟩ 0
      "junk\n8:0 Read 1\n8:0 Write 2\n8:0 Sync 3\n8:0 Async 4" ["junk"]
      [⟨"8:0", "8:0 Read 1", "8:0 Write 2", "8:0 Sync 3", "8:0 Async 4", "1", "2", "3", "4"⟩]
      (by simp) (by decide) (by simp) (by decide) (List.chain'_singleton _) (by decide)
    rw [h]
    decide
  · exact claim_C5.2 ⟨"", 0, []⟩ 0 "a b\nc" (by decide)

/-- C8.  A block-I/O row whose device-identifier field contains no
colon leaves `Major` and `Minor` unchanged while the operation field is
still processed normally, and a group all of whose rows lack a colon
produces a record with `Major = Minor = 0`; the parse never fails. -/
theorem claim_C8 :
    (∀ (b : BlkDevice) (line dev op v : String),
       goFields line = [dev, op, v] → (goSplitCh dev ':').length = 1 →
       (BlkDevice.step b line).Major = b.Major ∧
       (BlkDevice.step b line).Minor = b.Minor ∧
       (BlkDevice.step b line).Read = (if op = "Read" then goParseUint v else b.Read) ∧
       (BlkDevice.step b line).Write = (if op = "Write" then goParseUint v else b.Write) ∧
       (BlkDevice.step b line).Sync = (if op = "Sync" then goParseUint v else b.Sync) ∧
       (BlkDevice.step b line).Async = (if op = "Async" then goParseUint v else b.Async))
    ∧
    (∀ (lines : List String),
       (∀ l ∈ lines, (goSplitCh ((goFields l).getD 0 "") ':').length = 1) →
       (BlkDevice.create lines).Major = 0 ∧ (BlkDevice.create lines).Minor = 0) := by
  constructor
  · intro b line dev op v h hdev
    simp only [BlkDevice.step, h]
    split_ifs <;> first | omega | simp_all
  · intro lines h
    exact BlkDevice.foldl_major_minor lines BlkDevice.zero h

/-- Witness for C8: a colon-free device identifier on a Read row. -/
theorem claim_C8_witness :
    (BlkDevice.step ⟨1, 2, 3, 4, 5, 6⟩ "8 Read 9").Major = 1 ∧
    (BlkDevice.step ⟨1, 2, 3, 4, 5, 6⟩ "8 Read 9").Minor = 2 ∧
    (BlkDevice.step ⟨1, 2, 3, 4, 5, 6⟩ "8 Read 9").Read = 9 ∧
    (BlkDevice.create ["8 Read 9", "8 Write 7"]).Major = 0 := by
  have h := claim_C8.1 ⟨1, 2, 3, 4, 5, 6⟩ "8 Read 9" "8" "Read" "9" (by decide) (by decide)
  refine ⟨h.1, h.2.1, ?_, (claim_C8.2 ["8 Read 9", "8 Write 7"] (by decide)).1⟩
  rw [h.2.2.1]
  decide

/-! ## CPU and memory parsers (current variant, with `CommonFields`)

Embedding of `CPUStat.create` / `MemStat.create`.  The Go structs embed
`CommonFields{path, Timestamp}`; the fields are flattened here. -/

/-- Go struct `CPUStat` (with the embedded `CommonFields` flattened). -/
structure CPUStat where
  path : String
  Timestamp : Nat
  User : Nat
  System : Nat
deriving DecidableEq, Repr

/-- Go struct `MemStat` (with the embedded `CommonFields` flattened). -/
structure MemStat where
  path : String
  Timestamp : Nat
  RSS : Nat
  Cache : Nat
deriving DecidableEq, Repr

/-- The line loop of `CPUStat.create`: `switch i` assigns the parsed
second field of line 0 to `User` and of line 1 to `System`; every other
line is ignored (Go's `default: break` only exits the switch). -/
def CPUStat.linesLoop : CPUStat → List String → Nat → CPUStat
  | c, [], _ => c
  | c, line :: rest, i =>
      let fields := goFields line
      if fields.length < 2 then CPUStat.linesLoop c rest (i + 1)
      else
        match i with
        | 0 => CPUStat.linesLoop { c with User := goParseUint (fields.getD 1 "") } rest (i + 1)
        | 1 => CPUStat.linesLoop { c with System := goParseUint (fields.getD 1 "") } rest (i + 1)
        | _ => CPUStat.linesLoop c rest (i + 1)

/-- Go method `(c *CPUStat) create(content string)`. -/
def CPUStat.create (c : CPUStat) (now : Nat) (content : String) : CPUStat :=
  let lines := goSplitCh content '\n'
  if lines.length < 2 then c
  else { CPUStat.linesLoop c lines 0 with Timestamp := now }

/-- The line loop of `MemStat.create`: line 0 feeds `Cache`, line 1
feeds `RSS`. -/
def MemStat.linesLoop : MemStat → List String → Nat → MemStat
  | m, [], _ => m
  | m, line :: rest, i =>
      let fields := goFields line
      if fields.length < 2 then MemStat.linesLoop m rest (i + 1)
      else
        match i with
        | 0 => MemStat.linesLoop { m with Cache := goParseUint (fields.getD 1 "") } rest (i + 1)
        | 1 => MemStat.linesLoop { m with RSS := goParseUint (fields.getD 1 "") } rest (i + 1)
        | _ => MemStat.linesLoop m rest (i + 1)

/-- Go method `(m *MemStat) create(content string)`. -/
def MemStat.create (m : MemStat) (now : Nat) (content : String) : MemStat :=
  let lines := goSplitCh content '\n'
  if lines.length < 2 then m
  else { MemStat.linesLoop m lines 0 with Timestamp := now }

/-- From line index two on, the CPU loop no longer changes the record. -/
theorem CPUStat.cpuLinesLoop_ge_two :
    ∀ (rest : List String) (c : CPUStat) (i : Nat), 2 ≤ i →
      CPUStat.linesLoop c rest i = c := by
  intro rest
  induction rest with
  | nil => intro c i _; rfl
  | cons l rest ih =>
      intro c i hi
      simp only [CPUStat.linesLoop]
      split
      · exact ih c (i + 1) (by omega)
      · match i, hi with
        | n + 2, _ => exact ih c (n + 2 + 1) (by omega)

/-- From line index two on, the memory loop no longer changes the
record. -/
theorem MemStat.memLinesLoop_ge_two :
    ∀ (rest : List String) (m : MemStat) (i : Nat), 2 ≤ i →
      MemStat.linesLoop m rest i = m := by
  intro rest
  induction rest with
  | nil => intro m i _; rfl
  | cons l rest ih =>
      intro m i hi
      simp only [MemStat.linesLoop]
      split
      · exact ih m (i + 1) (by omega)
      · match i, hi with
        | n + 2, _ => exact ih m (n + 2 + 1) (by omega)

/-- C3.  For two-line CPU / memory content whose first two lines each
have at least two whitespace-delimited fields, the parsers assign the
parsed second field of line 0 to `User` (resp. `Cache`) and the parsed
second field of line 1 to `System` (resp. `RSS`); the first-field label
text (`a0`, `a1` below, universally quantified) plays no role, and
later lines are ignored. -/
theorem claim_C3 :
    ∀ (content : String) (ls : List String) (l0 l1 a0 v0 a1 v1 : String)
      (f0 f1 : List String) (c : CPUStat) (m : MemStat) (now : Nat),
      goSplitCh content '\n' = l0 :: l1 :: ls →
      goFields l0 = a0 :: v0 :: f0 →
      goFields l1 = a1 :: v1 :: f1 →
      (CPUStat.create c now content).User = goParseUint v0 ∧
      (CPUStat.create c now content).System = goParseUint v1 ∧
      (MemStat.create m now content).Cache = goParseUint v0 ∧
      (MemStat.create m now content).RSS = goParseUint v1 := by
  intro content ls l0 l1 a0 v0 a1 v1 f0 f1 c m now hsplit h0 h1
  have hcpu : CPUStat.create c now content
      = { CPUStat.linesLoop c (l0 :: l1 :: ls) 0 with Timestamp := now } := by
    simp only [CPUStat.create, hsplit]
    rw [if_neg (by simp)]
  have hmem : MemStat.create m now content
      = { MemStat.linesLoop m (l0 :: l1 :: ls) 0 with Timestamp := now } := by
    simp only [MemStat.create, hsplit]
    rw [if_neg (by simp)]
  have hc : CPUStat.linesLoop c (l0 :: l1 :: ls) 0
      = { c with User := goParseUint v0, System := goParseUint v1 } := by
    simp only [CPUStat.linesLoop, h0, h1]
    rw [if_neg (by simp), if_neg (by simp)]
    simp only [List.getD_cons_succ, List.getD_cons_zero]
    exact CPUStat.cpuLinesLoop_ge_two ls _ 2 (by omega)
  have hm : MemStat.linesLoop m (l0 :: l1 :: ls) 0
      = { m with Cache := goParseUint v0, RSS := goParseUint v1 } := by
    simp only [MemStat.linesLoop, h0, h1]
    rw [if_neg (by simp), if_neg (by simp)]
    simp only [List.getD_cons_succ, List.getD_cons_zero]
    exact MemStat.memLinesLoop_ge_two ls _ 2 (by omega)
  rw [hcpu, hmem, hc, hm]
  exact ⟨rfl, rfl, rfl, rfl⟩

/-- Witness for C3 on the spec's own scenario content
`"cache 100\nrss 200"` / `"user 5\nsystem 7"`. -/
theorem claim_C3_witness :
    (CPUStat.create ⟨"", 0, 0, 0⟩ 3 "user 5\nsystem 7").User = 5 ∧
    (CPUStat.create ⟨"", 0, 0, 0⟩ 3 "user 5\nsystem 7").System = 7 ∧
    (MemStat.create ⟨"", 0, 0, 0⟩ 3 "cache 100\nrss 200").Cache = 100 ∧
    (MemStat.create ⟨"", 0, 0, 0⟩ 3 "cache 100\nrss 200").RSS = 200 := by
  have hc := claim_C3 "user 5\nsystem 7" [] "user 5" "system 7" "user" "5"
    "system" "7" [] [] ⟨"", 0, 0, 0⟩ ⟨"", 0, 0, 0⟩ 3 (by decide) (by decide) (by decide)
  have hm := claim_C3 "cache 100\nrss 200" [] "cache 100" "rss 200" "cache" "100"
    "rss" "200" [] [] ⟨"", 0, 0, 0⟩ ⟨"", 0, 0, 0⟩ 3 (by decide) (by decide) (by decide)
  refine ⟨?_, ?_, ?_, ?_⟩
  · rw [hc.1]; decide
  · rw [hc.2.1]; decide
  · rw [hm.2.2.1]; decide
  · rw [hm.2.2.2]; decide

/-! ## The `ReadCgroups` snapshot pass (gocstat.go variant)

`gocstat.go` holds the variant whose per-entry eviction is inline in
`ReadCgroups`: a not-found read deletes the entry and `continue`s, any
other read error returns `(nil, err)` immediately.  Its `ContainerStat`
carries only memory and CPU counters, without timestamps.  The
filesystem is an external collaborator, modelled as a function from a
path to the outcome of `ioutil.ReadFile`.  The Go map is modelled as an
association list in iteration order. -/

/-- Go struct `CCPUStat` of gocstat.go. -/
structure CCPUStat where
  path : String
  User : Nat
  System : Nat
deriving DecidableEq, Repr

/-- Go struct `CMemStat` of gocstat.go. -/
structure CMemStat where
  path : String
  RSS : Nat
  Cache : Nat
deriving DecidableEq, Repr

/-- Go struct `ContainerStat` of gocstat.go. -/
structure ContainerStat where
  Memory : CMemStat
  CPU : CCPUStat
deriving DecidableEq, Repr

/-- The line loop of `(cs *ContainerStat) createCPUStat`. -/
def ContainerStat.cpuLinesLoop : ContainerStat → List String → Nat → ContainerStat
  | cs, [], _ => cs
  | cs, line :: rest, i =>
      let fields := goFields line
      if fields.length < 2 then ContainerStat.cpuLinesLoop cs rest (i + 1)
      else
        match i with
        | 0 => ContainerStat.cpuLinesLoop
            { cs with CPU := { cs.CPU with User := goParseUint (fields.getD 1 "") } } rest (i + 1)
        | 1 => ContainerStat.cpuLinesLoop
            { cs with CPU := { cs.CPU with System := goParseUint (fields.getD 1 "") } } rest (i + 1)
        | _ => ContainerStat.cpuLinesLoop cs rest (i + 1)

/-- Go method `(cs *ContainerStat) createCPUStat(content string)`. -/
def ContainerStat.createCPUStat (cs : ContainerStat) (content : String) : ContainerStat :=
  let lines := goSplitCh content '\n'
  if lines.length < 2 then cs
  else ContainerStat.cpuLinesLoop cs lines 0

/-- The line loop of `(cs *ContainerStat) createMemStat`. -/
def ContainerStat.memLinesLoop : ContainerStat → List String → Nat → ContainerStat
  | cs, [], _ => cs
  | cs, line :: rest, i =>
      let fields := goFields line
      if fields.length < 2 then ContainerStat.memLinesLoop cs rest (i + 1)
      else
        match i with
        | 0 => ContainerStat.memLinesLoop
            { cs with Memory := { cs.Memory with Cache := goParseUint (fields.getD 1 "") } } rest (i + 1)
        | 1 => ContainerStat.memLinesLoop
            { cs with Memory := { cs.Memory with RSS := goParseUint (fields.getD 1 "") } } rest (i + 1)
        | _ => ContainerStat.memLinesLoop cs rest (i + 1)

/-- Go method `(cs *ContainerStat) createMemStat(content string)`. -/
def ContainerStat.createMemStat (cs : ContainerStat) (content : String) : ContainerStat :=
  let lines := goSplitCh content '\n'
  if lines.length < 2 then cs
  else ContainerStat.memLinesLoop cs lines 0

/-- Outcome of `ioutil.ReadFile` on one path: content, a not-found
error (`os.IsNotExist(err)`), or any other error. -/
inductive ReadResult where
  | ok (content : String)
  | notFound
  | otherErr
deriving DecidableEq

/-- The filesystem as seen by one snapshot pass. -/
def FSModel := String → ReadResult

/-- What processing one container entry did: the entry survives with
updated counters (`keep`), it was evicted after a not-found read
(`drop`), or a read failed hard and the whole call aborts (`fail`). -/
inductive POutcome where
  | drop
  | keep
  | fail
deriving DecidableEq

/-- The CPU half of the `ReadCgroups` loop body: read `cs.CPU.path` if
bound, evict on not-found, abort on any other error, else update. -/
def processEntryCPU (fs : FSModel) (cs : ContainerStat) : POutcome × ContainerStat :=
  if cs.CPU.path = "" then (.keep, cs)
  else
    match fs cs.CPU.path with
    | .notFound => (.drop, cs)
    | .otherErr => (.fail, cs)
    | .ok b => (.keep, cs.createCPUStat b)

/-- The full `ReadCgroups` loop body for one entry: the memory file
first, then the CPU file. -/
def processEntry (fs : FSModel) (cs : ContainerStat) : POutcome × ContainerStat :=
  if cs.Memory.path = "" then processEntryCPU fs cs
  else
    match fs cs.Memory.path with
    | .notFound => (.drop, cs)
    | .otherErr => (.fail, cs)
    | .ok b => processEntryCPU fs (cs.createMemStat b)

/-- The `for id, cs := range cg.Containers` loop of `ReadCgroups`:
returns the resulting store and whether the call aborted with an error.
A `drop` removes the entry, a `fail` returns immediately, leaving the
current (partially updated) entry and all unvisited entries in the
store. -/
def readCgroupsLoop (fs : FSModel) :
    List (String × ContainerStat) → List (String × ContainerStat) × Bool
  | [] => ([], false)
  | (id, cs) :: rest =>
      match processEntry fs cs with
      | (.drop, _) => readCgroupsLoop fs rest
      | (.keep, cs') =>
          let r := readCgroupsLoop fs rest
          ((id, cs') :: r.1, r.2)
      | (.fail, cs') => ((id, cs') :: rest, true)

/-- Go `ReadCgroups`: returns the mapping (or `none` if a read failed
hard) paired with the final store contents. -/
def ReadCgroups (fs : FSModel) (s : List (String × ContainerStat)) :
    Option (List (String × ContainerStat)) × List (String × ContainerStat) :=
  let r := readCgroupsLoop fs s
  (if r.2 then none else some r.1, r.1)

/-- The entry's memory file either is unbound or reads successfully. -/
def memReadable (fs : FSModel) (cs : ContainerStat) : Prop :=
  cs.Memory.path = "" ∨ ∃ b, fs cs.Memory.path = .ok b

/-- The snapshot pass evicts this entry: a bound memory file is gone,
or (the memory stage passing) a bound CPU file is gone. -/
def evicts (fs : FSModel) (cs : ContainerStat) : Prop :=
  (cs.Memory.path ≠ "" ∧ fs cs.Memory.path = .notFound) ∨
  (memReadable fs cs ∧ cs.CPU.path ≠ "" ∧ fs cs.CPU.path = .notFound)

/-- No bound file of this entry fails with a non-not-found error. -/
def noHardErr (fs : FSModel) (cs : ContainerStat) : Prop :=
  (cs.Memory.path ≠ "" → fs cs.Memory.path ≠ .otherErr) ∧
  (cs.CPU.path ≠ "" → fs cs.CPU.path ≠ .otherErr)

/-- The snapshot pass aborts at this entry: a bound memory file fails
hard, or (the memory stage passing) a bound CPU file fails hard. -/
def failsAt (fs : FSModel) (cs : ContainerStat) : Prop :=
  (cs.Memory.path ≠ "" ∧ fs cs.Memory.path = .otherErr) ∨
  (memReadable fs cs ∧ cs.CPU.path ≠ "" ∧ fs cs.CPU.path = .otherErr)

theorem ContainerStat.memLinesLoop_CPU :
    ∀ (lines : List String) (cs : ContainerStat) (i : Nat),
      (ContainerStat.memLinesLoop cs lines i).CPU = cs.CPU := by
  intro lines
  induction lines with
  | nil => intro cs i; rfl
  | cons l lines ih =>
      intro cs i
      simp only [ContainerStat.memLinesLoop]
      split
      · exact ih cs (i + 1)
      · match i with
        | 0 => exact ih _ 1
        | 1 => exact ih _ 2
        | n + 2 => exact ih cs (n + 3)

/-- Parsing memory content never touches the CPU half of the entry (in
particular it preserves the CPU path binding). -/
theorem ContainerStat.createMemStat_CPU (cs : ContainerStat) (b : String) :
    (cs.createMemStat b).CPU = cs.CPU := by
  simp only [ContainerStat.createMemStat]
  split
  · rfl
  · exact ContainerStat.memLinesLoop_CPU _ cs 0

/-- An entry none of whose bound files fails hard never aborts the
pass. -/
theorem processEntry_ne_fail (fs : FSModel) (cs : ContainerStat)
    (h : noHardErr fs cs) : (processEntry fs cs).1 ≠ .fail := by
  obtain ⟨hm, hc⟩ := h
  have hcpu : ∀ cs' : ContainerStat, cs'.CPU = cs.CPU →
      (processEntryCPU fs cs').1 ≠ .fail := by
    intro cs' heq
    simp only [processEntryCPU, heq]
    split
    · simp
    · rename_i hp
      rcases hfs : fs cs.CPU.path with b | _ | _ <;> simp [hfs]
      exact (hc hp) hfs
  simp only [processEntry]
  split
  · exact hcpu cs rfl
  · rename_i hp
    rcases hfs : fs cs.Memory.path with b | _ | _
    · exact hcpu (cs.createMemStat b) (ContainerStat.createMemStat_CPU cs b)
    · simp
    · exact absurd hfs (hm hp)

/-- An entry with a vanished bound file is dropped. -/
theorem processEntry_evicts (fs : FSModel) (cs : ContainerStat)
    (h : evicts fs cs) : (processEntry fs cs).1 = .drop := by
  rcases h with ⟨hp, hnf⟩ | ⟨hmr, hcp, hcnf⟩
  · simp only [processEntry]
    rw [if_neg hp, hnf]
  · have hcpu : ∀ cs' : ContainerStat, cs'.CPU = cs.CPU →
        (processEntryCPU fs cs').1 = .drop := by
      intro cs' heq
      simp only [processEntryCPU, heq]
      rw [if_neg hcp, hcnf]
    rcases hmr with hpe | ⟨b, hok⟩
    · simp only [processEntry]
      rw [if_pos hpe]
      exact hcpu cs rfl
    · simp only [processEntry]
      split
      · exact hcpu cs rfl
      · rw [hok]
        exact hcpu (cs.createMemStat b) (ContainerStat.createMemStat_CPU cs b)

/-- An entry whose bound file fails hard aborts the pass. -/
theorem processEntry_failsAt (fs : FSModel) (cs : ContainerStat)
    (h : failsAt fs cs) : (processEntry fs cs).1 = .fail := by
  rcases h with ⟨hp, herr⟩ | ⟨hmr, hcp, hcerr⟩
  · simp only [processEntry]
    rw [if_neg hp, herr]
  · have hcpu : ∀ cs' : ContainerStat, cs'.CPU = cs.CPU →
        (processEntryCPU fs cs').1 = .fail := by
      intro cs' heq
      simp only [processEntryCPU, heq]
      rw [if_neg hcp, hcerr]
    rcases hmr with hpe | ⟨b, hok⟩
    · simp only [processEntry]
      rw [if_pos hpe]
      exact hcpu cs rfl
    · simp only [processEntry]
      split
      · exact hcpu cs rfl
      · rw [hok]
        exact hcpu (cs.createMemStat b) (ContainerStat.createMemStat_CPU cs b)

/-- The pass never invents container ids. -/
theorem readCgroupsLoop_keys_subset (fs : FSModel) :
    ∀ (s : List (String × ContainerStat)),
      ((readCgroupsLoop fs s).1).map Prod.fst ⊆ s.map Prod.fst := by
  intro s
  induction s with
  | nil => simp [readCgroupsLoop]
  | cons e rest ih =>
      obtain ⟨id, cs⟩ := e
      simp only [readCgroupsLoop]
      rcases hpe : processEntry fs cs with ⟨o, cs'⟩
      cases o with
      | drop => exact fun x hx => by simp [ih hx]
      | keep =>
          intro x hx
          simp only [List.map_cons, List.mem_cons] at hx ⊢
          rcases hx with h | h
          · exact Or.inl h
          · exact Or.inr (ih h)
      | fail => simp

/-- If no entry's bound file fails hard, the pass completes without
error. -/
theorem readCgroupsLoop_no_error (fs : FSModel) :
    ∀ (s : List (String × ContainerStat)),
      (∀ e ∈ s, noHardErr fs e.2) → (readCgroupsLoop fs s).2 = false := by
  intro s
  induction s with
  | nil => intro _; rfl
  | cons e rest ih =>
      intro h
      obtain ⟨id, cs⟩ := e
      simp only [readCgroupsLoop]
      rcases hpe : processEntry fs cs with ⟨o, cs'⟩
      cases o with
      | drop => exact ih (fun x hx => h x (by simp [hx]))
      | keep => exact ih (fun x hx => h x (by simp [hx]))
      | fail =>
          have := processEntry_ne_fail fs cs (h (id, cs) (by simp))
          rw [hpe] at this
          exact absurd rfl this

/-- C2.  If a container entry's bound memory (or CPU) file reads as
not-found and no entry's read fails hard, `ReadCgroups` evicts that
container's entire entry — its id is absent from the final store — and
the call returns the mapping (no error). -/
theorem claim_C2 :
    ∀ (fs : FSModel) (s : List (String × ContainerStat)) (id : String)
      (cs : ContainerStat),
      (s.map Prod.fst).Nodup → (id, cs) ∈ s → evicts fs cs →
      (∀ e ∈ s, noHardErr fs e.2) →
      (ReadCgroups fs s).1 = some ((ReadCgroups fs s).2) ∧
      id ∉ ((ReadCgroups fs s).2).map Prod.fst := by
  intro fs s id cs hnd hmem hev hok
  have herr : (readCgroupsLoop fs s).2 = false := readCgroupsLoop_no_error fs s hok
  constructor
  · simp only [ReadCgroups, herr]
    rfl
  · show id ∉ ((readCgroupsLoop fs s).1).map Prod.fst
    clear herr
    induction s with
    | nil => simp at hmem
    | cons e rest ih =>
        obtain ⟨hid, hcs⟩ := e
        simp only [readCgroupsLoop]
        rcases List.mem_cons.mp hmem with hhead | htail
        · injection hhead with h1 h2
          subst h1
          subst h2
          have hdrop := processEntry_evicts fs cs hev
          rcases hpe : processEntry fs cs with ⟨o, cs'⟩
          rw [hpe] at hdrop
          have ho : o = .drop := hdrop
          subst ho
          intro hx
          have hsub := readCgroupsLoop_keys_subset fs rest hx
          exact (List.nodup_cons.mp hnd).1 hsub
        · have hidne : hid ≠ id := by
            intro hcon
            have : id ∈ rest.map Prod.fst :=
              List.mem_map.mpr ⟨(id, cs), htail, rfl⟩
            rw [hcon] at hnd
            exact (List.nodup_cons.mp hnd).1 this
          have ihr := ih (List.nodup_cons.mp hnd).2 htail
            (fun x hx => hok x (by simp [hx]))
          rcases hpe : processEntry fs hcs with ⟨o, cs'⟩
          cases o with
          | drop => exact ihr
          | keep =>
              intro hx
              simp only [List.map_cons, List.mem_cons] at hx
              rcases hx with h | h
              · exact hidne h.symm
              · exact ihr h
          | fail =>
              have := processEntry_ne_fail fs hcs (hok (hid, hcs) (by simp))
              rw [hpe] at this
              exact absurd rfl this

/-- Witness for C2: one container whose bound memory file has vanished;
the call returns its (empty) mapping and the id is gone. -/
theorem claim_C2_witness :
    (ReadCgroups (fun p => if p = "m" then .notFound else .ok "")
        [("c1", ⟨⟨"m", 0, 0⟩, ⟨"", 0, 0⟩⟩)]).1
      = some ((ReadCgroups (fun p => if p = "m" then .notFound else .ok "")
        [("c1", ⟨⟨"m", 0, 0⟩, ⟨"", 0, 0⟩⟩)]).2) ∧
    "c1" ∉ (((ReadCgroups (fun p => if p = "m" then .notFound else .ok "")
        [("c1", ⟨⟨"m", 0, 0⟩, ⟨"", 0, 0⟩⟩)]).2)).map Prod.fst :=
  claim_C2 _ _ "c1" ⟨⟨"m", 0, 0⟩, ⟨"", 0, 0⟩⟩ (by simp) (by simp)
    (Or.inl ⟨by simp, by simp⟩)
    (fun e he => by
      rw [List.mem_singleton] at he
      subst he
      exact ⟨fun _ => by simp, fun h => absurd rfl h⟩)

/-- The survivors of an error-free prefix of the pass, with their
updated counter values. -/
def processedPrefix (fs : FSModel) (s : List (String × ContainerStat)) :
    List (String × ContainerStat) :=
  s.filterMap (fun e =>
    match processEntry fs e.2 with
    | (.drop, _) => none
    | (.keep, cs') => some (e.1, cs')
    | (.fail, _) => none)

/-- C4.  If reading some container's bound file fails with an error
other than not-found, `ReadCgroups` returns that error with a nil
mapping, and every entry processed earlier in the pass keeps the
counter values it was updated to during this same pass: the final store
is the updated prefix, then the failing entry in its mid-pass state,
then the untouched remainder. -/
theorem claim_C4 :
    ∀ (fs : FSModel) (s1 s2 : List (String × ContainerStat)) (id : String)
      (cs : ContainerStat),
      (∀ e ∈ s1, noHardErr fs e.2) → failsAt fs cs →
      (ReadCgroups fs (s1 ++ (id, cs) :: s2)).1 = none ∧
      (ReadCgroups fs (s1 ++ (id, cs) :: s2)).2
        = processedPrefix fs s1 ++ (id, (processEntry fs cs).2) :: s2 := by
  intro fs s1 s2 id cs hok hfail
  have hloop : readCgroupsLoop fs (s1 ++ (id, cs) :: s2)
      = (processedPrefix fs s1 ++ (id, (processEntry fs cs).2) :: s2, true) := by
    induction s1 with
    | nil =>
        simp only [List.nil_append, readCgroupsLoop, processedPrefix, List.filterMap_nil]
        have h1 := processEntry_failsAt fs cs hfail
        rcases hpe : processEntry fs cs with ⟨o, cs'⟩
        rw [hpe] at h1
        simp only at h1
        subst h1
        rfl
    | cons e rest ih =>
        obtain ⟨hid, hcs⟩ := e
        have ihr := ih (fun x hx => hok x (by simp [hx]))
        simp only [List.cons_append, readCgroupsLoop, processedPrefix,
          List.filterMap_cons]
        rcases hpe : processEntry fs hcs with ⟨o, cs'⟩
        cases o with
        | drop =>
            simp only [processedPrefix] at ihr
            simp only [List.append_eq]
            rw [ihr]
        | keep =>
            simp only [processedPrefix] at ihr
            simp only [List.append_eq]
            rw [ihr]
            rfl
        | fail =>
            have := processEntry_ne_fail fs hcs (hok (hid, hcs) (by simp))
            rw [hpe] at this
            exact absurd rfl this
  constructor
  · simp only [ReadCgroups, hloop]
    rfl
  · simp only [ReadCgroups, hloop]

/-- Witness for C4: entry "a" updates from its readable memory file,
entry "b"'s bound memory file fails hard; the call returns the error
(nil mapping) and "a" keeps its updated counters in the store. -/
theorem claim_C4_witness :
    (ReadCgroups
        (fun p => if p = "e" then .otherErr else .ok "c 11\nr 22")
        [("a", ⟨⟨"ma", 0, 0⟩, ⟨"", 0, 0⟩⟩), ("b", ⟨⟨"e", 0, 0⟩, ⟨"", 0, 0⟩⟩)]).1
      = none ∧
    (ReadCgroups
        (fun p => if p = "e" then .otherErr else .ok "c 11\nr 22")
        [("a", ⟨⟨"ma", 0, 0⟩, ⟨"", 0, 0⟩⟩), ("b", ⟨⟨"e", 0, 0⟩, ⟨"", 0, 0⟩⟩)]).2
      = [("a", ⟨⟨"ma", 22, 11⟩, ⟨"", 0, 0⟩⟩), ("b", ⟨⟨"e", 0, 0⟩, ⟨"", 0, 0⟩⟩)] := by
  have h := claim_C4
    (fun p => if p = "e" then .otherErr else .ok "c 11\nr 22")
    [("a", ⟨⟨"ma", 0, 0⟩, ⟨"", 0, 0⟩⟩)] [] "b" ⟨⟨"e", 0, 0⟩, ⟨"", 0, 0⟩⟩
    (fun e he => by
      rw [List.mem_singleton] at he
      subst he
      exact ⟨fun _ => by simp, fun hp => absurd rfl hp⟩)
    (Or.inl ⟨by simp, by simp⟩)
  exact ⟨h.1, h.2.trans (by decide)⟩

/-! ## The discovery walk (part_002 variant)

`walkFn` as in the current gocstat.go (the variant with the four metric
file names and swallowed per-entry errors).  The compiled identifier
regular expression is an external collaborator: it is modelled as an
`extract` function returning the captured container id of a matching
path, or `none` (this stands for `re.FindStringSubmatch` followed by
the `len(matches) < 2` check).  One `filepath.Walk` callback invocation
is a `WalkStep`; `errFlag` models a non-nil `err` argument, `baseName`
models `path.Base(info.Name())`, `isDir` models `info.IsDir()`. -/

/-- Go struct `BlkIOStat`: the two block-I/O variants. -/
structure BlkIOStat where
  Bytes : BlkServiced
  IOPS : BlkServiced
deriving DecidableEq, Repr

/-- Go struct `ContainerStats` (part_002).  The Go field holding the
`BlkIOStat` is named for block I/O; it is called `Blk` here. -/
structure ContainerStats where
  Memory : MemStat
  CPU : CPUStat
  Blk : BlkIOStat
deriving DecidableEq, Repr

/-- The zero value `&ContainerStats{}` allocated for a new container. -/
def ContainerStats.empty : ContainerStats :=
  { Memory := ⟨"", 0, 0, 0⟩
    CPU := ⟨"", 0, 0, 0⟩
    Blk := ⟨⟨"", 0, []⟩, ⟨"", 0, []⟩⟩ }

/-- Go constant `memFile`. -/
def memFile : String := "memory.stat"

/-- Go constant `cPUFile`. -/
def cPUFile : String := "cpuacct.stat"

/-- Go constant `blkIOIOPSFile`: the operation-count file. -/
def blkIOIOPSFile : String := "blkio.throttle.io_serviced"

/-- Go constant `blkIOBytesFile`: the byte-count file. -/
def blkIOBytesFile : String := "blkio.throttle.io_service_bytes"

/-- Go map lookup `stats[id]` on the association-list model. -/
def lookupEntry {α : Type} : List (String × α) → String → Option α
  | [], _ => none
  | e :: rest, id => if e.1 = id then some e.2 else lookupEntry rest id

/-- In-place mutation of the entry stored under `id` (Go mutates the
struct behind the map's pointer value). -/
def updateEntry {α : Type} (s : List (String × α)) (id : String) (f : α → α) :
    List (String × α) :=
  s.map (fun e => if e.1 = id then (e.1, f e.2) else e)

/-- One `filepath.Walk` callback invocation. -/
structure WalkStep where
  path : String
  isDir : Bool
  baseName : String
  errFlag : Bool
deriving DecidableEq, Repr

/-- The metric-file switch of `walkFn`, as a function of the base name
and the visited path. -/
def bindMetric (baseName path : String) (cs : ContainerStats) : ContainerStats :=
  if baseName = memFile then
    { cs with Memory := { cs.Memory with path := path } }
  else if baseName = cPUFile then
    { cs with CPU := { cs.CPU with path := path } }
  else if baseName = blkIOIOPSFile then
    { cs with Blk := { cs.Blk with Bytes := { cs.Blk.Bytes with path := path } } }
  else if baseName = blkIOBytesFile then
    { cs with Blk := { cs.Blk with IOPS := { cs.Blk.IOPS with path := path } } }
  else cs

/-- Go `walkFn` (part_002): a non-nil incoming error returns nil at
once; a non-matching path returns nil; a matching directory creates the
entry if absent; a matching regular file binds the corresponding metric
path (the `bindMetric` switch) — only if the entry already exists.  The
second component is the error walkFn returns to `filepath.Walk`
(always nil in this variant). -/
def walkFn (extract : String → Option String)
    (s : List (String × ContainerStats)) (st : WalkStep) :
    List (String × ContainerStats) × Option Unit :=
  if st.errFlag then (s, none)
  else
    match extract st.path with
    | none => (s, none)
    | some id =>
        if st.isDir then
          (if (lookupEntry s id).isSome then s else s ++ [(id, ContainerStats.empty)], none)
        else
          if (lookupEntry s id).isSome then
            (updateEntry s id (bindMetric st.baseName st.path), none)
          else (s, none)

/-- A whole discovery pass from the empty store. -/
def runWalk (extract : String → Option String) (steps : List WalkStep) :
    List (String × ContainerStats) :=
  steps.foldl (fun s st => (walkFn extract s st).1) []

/-- The ids captured from error-free directory visits of the walk. -/
def dirIds (extract : String → Option String) (steps : List WalkStep) :
    List String :=
  steps.filterMap (fun st =>
    if st.errFlag = false ∧ st.isDir = true then extract st.path else none)

theorem updateEntry_keys {α : Type} (s : List (String × α)) (id : String) (f : α → α) :
    (updateEntry s id f).map Prod.fst = s.map Prod.fst := by
  induction s with
  | nil => rfl
  | cons e rest ih =>
      simp only [updateEntry, List.map_cons] at ih ⊢
      split
      · rename_i h
        rw [ih]
      · rw [ih]

theorem lookupEntry_updateEntry {α : Type} (s : List (String × α)) (id : String)
    (f : α → α) :
    lookupEntry (updateEntry s id f) id = (lookupEntry s id).map f := by
  induction s with
  | nil => rfl
  | cons e rest ih =>
      by_cases h : e.1 = id
      · simp [updateEntry, lookupEntry, h]
      · simpa [updateEntry, lookupEntry, h] using ih

theorem dirIds_cons (extract : String → Option String) (st : WalkStep)
    (steps : List WalkStep) :
    dirIds extract (st :: steps)
      = (if st.errFlag = false ∧ st.isDir = true then extract st.path else none).toList
        ++ dirIds extract steps := by
  simp only [dirIds, List.filterMap_cons]
  split
  · rename_i heq
    rw [heq]
    rfl
  · rename_i o heq
    rw [heq]
    rfl

theorem walkFn_err {st : WalkStep} (he : st.errFlag = true)
    (extract : String → Option String) (s : List (String × ContainerStats)) :
    walkFn extract s st = (s, none) := by
  simp [walkFn, he]

theorem walkFn_nomatch {st : WalkStep} (he : st.errFlag = false)
    {extract : String → Option String} (hex : extract st.path = none)
    (s : List (String × ContainerStats)) :
    walkFn extract s st = (s, none) := by
  simp [walkFn, he, hex]

theorem walkFn_dir {st : WalkStep} (he : st.errFlag = false)
    {extract : String → Option String} {id : String}
    (hex : extract st.path = some id) (hd : st.isDir = true)
    (s : List (String × ContainerStats)) :
    walkFn extract s st
      = (if (lookupEntry s id).isSome then s else s ++ [(id, ContainerStats.empty)],
         none) := by
  simp [walkFn, he, hex, hd]

theorem walkFn_file_absent {st : WalkStep} (he : st.errFlag = false)
    {extract : String → Option String} {id : String}
    (hex : extract st.path = some id) (hd : st.isDir = false)
    {s : List (String × ContainerStats)} (hl : (lookupEntry s id).isSome = false) :
    walkFn extract s st = (s, none) := by
  simp [walkFn, he, hex, hd, hl]

theorem walkFn_file_present {st : WalkStep} (he : st.errFlag = false)
    {extract : String → Option String} {id : String}
    (hex : extract st.path = some id) (hd : st.isDir = false)
    {s : List (String × ContainerStats)} (hl : (lookupEntry s id).isSome = true) :
    walkFn extract s st = (updateEntry s id (bindMetric st.baseName st.path), none) := by
  simp [walkFn, he, hex, hd, hl]

/-- One walk step only ever adds the id of an error-free directory
match to the store's key set. -/
theorem walkFn_keys (extract : String → Option String)
    (s : List (String × ContainerStats)) (st : WalkStep) :
    ((walkFn extract s st).1).map Prod.fst
      ⊆ s.map Prod.fst
        ++ (if st.errFlag = false ∧ st.isDir = true then extract st.path else none).toList := by
  by_cases he : st.errFlag = true
  · rw [walkFn_err he]
    simp
  · rw [Bool.not_eq_true] at he
    rcases hex : extract st.path with _ | id
    · rw [walkFn_nomatch he hex]
      simp
    · by_cases hd : st.isDir = true
      · rw [walkFn_dir he hex hd]
        by_cases hl : (lookupEntry s id).isSome = true
        · simp [hl]
        · rw [Bool.not_eq_true] at hl
          simp only [hl, Bool.false_eq_true, if_false, he, hd, and_self, if_true,
            hex, Option.toList_some]
          intro x hx
          simp only [List.map_append, List.map_cons, List.map_nil, List.mem_append,
            List.mem_cons, List.not_mem_nil, or_false] at hx ⊢
          tauto
      · rw [Bool.not_eq_true] at hd
        by_cases hl : (lookupEntry s id).isSome = true
        · rw [walkFn_file_present he hex hd hl]
          intro x hx
          rw [updateEntry_keys] at hx
          simp [hx]
        · rw [Bool.not_eq_true] at hl
          rw [walkFn_file_absent he hex hd hl]
          simp

/-- C6.  Over any walk from the empty store: (a) every key of the
resulting store is the captured id of some error-free directory match
of the walk — entries are created only by directory matches; (b) a
visit of a regular file never changes the key set, so it never creates
an entry; (c) a metric-file match against an id with no existing entry
leaves the store exactly unchanged — a binding is set only if the
entry already exists. -/
theorem claim_C6 :
    (∀ (extract : String → Option String) (steps : List WalkStep),
       (runWalk extract steps).map Prod.fst ⊆ dirIds extract steps)
    ∧
    (∀ (extract : String → Option String) (s : List (String × ContainerStats))
       (st : WalkStep), st.isDir = false →
       ((walkFn extract s st).1).map Prod.fst = s.map Prod.fst)
    ∧
    (∀ (extract : String → Option String) (s : List (String × ContainerStats))
       (st : WalkStep) (id : String), st.isDir = false →
       extract st.path = some id → lookupEntry s id = none →
       (walkFn extract s st).1 = s) := by
  refine ⟨?_, ?_, ?_⟩
  · intro extract steps
    have aux : ∀ (steps : List WalkStep) (s : List (String × ContainerStats)),
        ((steps.foldl (fun s st => (walkFn extract s st).1) s).map Prod.fst)
          ⊆ s.map Prod.fst ++ dirIds extract steps := by
      intro steps
      induction steps with
      | nil => intro s; simp [dirIds]
      | cons st steps ih =>
          intro s x hx
          have hx' := ih ((walkFn extract s st).1) hx
          rw [List.mem_append] at hx'
          rw [dirIds_cons, List.mem_append]
          rcases hx' with h1 | h2
          · have := walkFn_keys extract s st h1
            rw [List.mem_append] at this
            rcases this with h3 | h4
            · exact Or.inl h3
            · exact Or.inr (List.mem_append.mpr (Or.inl h4))
          · exact Or.inr (List.mem_append.mpr (Or.inr h2))
    intro x hx
    have := aux steps [] hx
    simpa using this
  · intro extract s st hd
    by_cases he : st.errFlag = true
    · rw [walkFn_err he]
    · rw [Bool.not_eq_true] at he
      rcases hex : extract st.path with _ | id
      · rw [walkFn_nomatch he hex]
      · by_cases hl : (lookupEntry s id).isSome = true
        · rw [walkFn_file_present he hex hd hl]
          exact updateEntry_keys s id _
        · rw [Bool.not_eq_true] at hl
          rw [walkFn_file_absent he hex hd hl]
  · intro extract s st id hd hex hl
    by_cases he : st.errFlag = true
    · rw [walkFn_err he]
    · rw [Bool.not_eq_true] at he
      have hl' : (lookupEntry s id).isSome = false := by rw [hl]; rfl
      rw [walkFn_file_absent he hex hd hl']

/-- Witness for C6 at a concrete walk: a file step for an unknown id
leaves the empty store empty, a directory step creates the entry, and a
later file visit does not enlarge the key set. -/
theorem claim_C6_witness :
    (runWalk (fun p => if p = "x" then some "c1" else none)
        [⟨"x", false, "memory.stat", false⟩]).map Prod.fst
      ⊆ dirIds (fun p => if p = "x" then some "c1" else none)
          [⟨"x", false, "memory.stat", false⟩] ∧
    ((walkFn (fun _ => some "c1") [("c1", ContainerStats.empty)]
        ⟨"x", false, "memory.stat", false⟩).1).map Prod.fst
      = [("c1", ContainerStats.empty)].map Prod.fst ∧
    (walkFn (fun _ => some "c9") [("c1", ContainerStats.empty)]
        ⟨"x", false, "memory.stat", false⟩).1
      = [("c1", ContainerStats.empty)] := by
  refine ⟨claim_C6.1 _ _, claim_C6.2.1 _ _ _ rfl, claim_C6.2.2 _ _ _ "c9" rfl rfl ?_⟩
  decide

/-- C7.  A non-nil error handed to `walkFn` (part_002 variant) is
absorbed: the store is untouched and walkFn returns nil, so
`filepath.Walk` continues with the remaining entries; indeed this
walkFn returns nil on every input, so a discovery pass never fails
because of a per-entry error. -/
theorem claim_C7 :
    (∀ (extract : String → Option String) (s : List (String × ContainerStats))
       (st : WalkStep), st.errFlag = true → walkFn extract s st = (s, none))
    ∧
    (∀ (extract : String → Option String) (s : List (String × ContainerStats))
       (st : WalkStep), (walkFn extract s st).2 = none) := by
  constructor
  · intro extract s st he
    rw [walkFn_err he]
  · intro extract s st
    by_cases he : st.errFlag = true
    · rw [walkFn_err he]
    · rw [Bool.not_eq_true] at he
      rcases hex : extract st.path with _ | id
      · rw [walkFn_nomatch he hex]
      · by_cases hd : st.isDir = true
        · rw [walkFn_dir he hex hd]
        · rw [Bool.not_eq_true] at hd
          by_cases hl : (lookupEntry s id).isSome = true
          · rw [walkFn_file_present he hex hd hl]
          · rw [Bool.not_eq_true] at hl
            rw [walkFn_file_absent he hex hd hl]

/-- Witness for C7: an errored step over a nonempty store. -/
theorem claim_C7_witness :
    walkFn (fun _ => some "c1") [("c1", ContainerStats.empty)]
        ⟨"x", true, "y", true⟩
      = ([("c1", ContainerStats.empty)], none) ∧
    (walkFn (fun _ => some "c1") [("c1", ContainerStats.empty)]
        ⟨"x", false, "memory.stat", false⟩).2 = none :=
  ⟨claim_C7.1 _ _ _ rfl, claim_C7.2 _ _ _⟩

/-- C9.  On a regular-file match against an existing entry, `walkFn`
binds the operation-count file (`blkio.throttle.io_serviced`) to the
`Bytes` path field and the byte-count file
(`blkio.throttle.io_service_bytes`) to the `IOPS` path field — the two
bindings are swapped relative to the field names, exactly as the
source's switch cases write them. -/
theorem claim_C9 :
    ∀ (extract : String → Option String) (s : List (String × ContainerStats))
      (st : WalkStep) (id : String) (cs : ContainerStats),
      st.errFlag = false → st.isDir = false →
      extract st.path = some id → lookupEntry s id = some cs →
      (st.baseName = blkIOIOPSFile →
        ∃ cs', lookupEntry (walkFn extract s st).1 id = some cs' ∧
          cs'.Blk.Bytes.path = st.path ∧ cs'.Blk.IOPS = cs.Blk.IOPS ∧
          cs'.Memory = cs.Memory ∧ cs'.CPU = cs.CPU) ∧
      (st.baseName = blkIOBytesFile →
        ∃ cs', lookupEntry (walkFn extract s st).1 id = some cs' ∧
          cs'.Blk.IOPS.path = st.path ∧ cs'.Blk.Bytes = cs.Blk.Bytes ∧
          cs'.Memory = cs.Memory ∧ cs'.CPU = cs.CPU) := by
  intro extract s st id cs he hd hex hl
  have hsome : (lookupEntry s id).isSome = true := by rw [hl]; rfl
  have hwalk : (walkFn extract s st).1
      = updateEntry s id (bindMetric st.baseName st.path) := by
    rw [walkFn_file_present he hex hd hsome]
  have hlook : lookupEntry (walkFn extract s st).1 id
      = some (bindMetric st.baseName st.path cs) := by
    rw [hwalk, lookupEntry_updateEntry, hl]
    rfl
  constructor
  · intro hb
    refine ⟨{ cs with Blk := { cs.Blk with Bytes := { cs.Blk.Bytes with path := st.path } } },
      ?_, rfl, rfl, rfl, rfl⟩
    rw [hlook, hb]
    have h1 : blkIOIOPSFile ≠ memFile := by decide
    have h2 : blkIOIOPSFile ≠ cPUFile := by decide
    simp [bindMetric, h1, h2]
  · intro hb
    refine ⟨{ cs with Blk := { cs.Blk with IOPS := { cs.Blk.IOPS with path := st.path } } },
      ?_, rfl, rfl, rfl, rfl⟩
    rw [hlook, hb]
    have h1 : blkIOBytesFile ≠ memFile := by decide
    have h2 : blkIOBytesFile ≠ cPUFile := by decide
    have h3 : blkIOBytesFile ≠ blkIOIOPSFile := by decide
    simp [bindMetric, h1, h2, h3]

/-- Witness for C9: the operation-count file lands in the `Bytes` path
binding of an existing entry. -/
theorem claim_C9_witness :
    (∃ cs', lookupEntry (walkFn (fun _ => some "c1")
        [("c1", ContainerStats.empty)]
        ⟨"/a/blkio.throttle.io_serviced", false, "blkio.throttle.io_serviced", false⟩).1 "c1"
        = some cs' ∧
      cs'.Blk.Bytes.path = "/a/blkio.throttle.io_serviced" ∧
      cs'.Blk.IOPS = ContainerStats.empty.Blk.IOPS ∧
      cs'.Memory = ContainerStats.empty.Memory ∧
      cs'.CPU = ContainerStats.empty.CPU) ∧
    (∃ cs', lookupEntry (walkFn (fun _ => some "c1")
        [("c1", ContainerStats.empty)]
        ⟨"/a/blkio.throttle.io_service_bytes", false, "blkio.throttle.io_service_bytes", false⟩).1 "c1"
        = some cs' ∧
      cs'.Blk.IOPS.path = "/a/blkio.throttle.io_service_bytes" ∧
      cs'.Blk.Bytes = ContainerStats.empty.Blk.Bytes ∧
      cs'.Memory = ContainerStats.empty.Memory ∧
      cs'.CPU = ContainerStats.empty.CPU) :=
  ⟨(claim_C9 (fun _ => some "c1") [("c1", ContainerStats.empty)]
      ⟨"/a/blkio.throttle.io_serviced", false, "blkio.throttle.io_serviced", false⟩
      "c1" ContainerStats.empty rfl rfl rfl (by decide)).1 rfl,
   (claim_C9 (fun _ => some "c1") [("c1", ContainerStats.empty)]
      ⟨"/a/blkio.throttle.io_service_bytes", false, "blkio.throttle.io_service_bytes", false⟩
      "c1" ContainerStats.empty rfl rfl rfl (by decide)).2 rfl⟩

/-! ## The `ReadStats` snapshot pass (part_002 variant)

In this variant eviction lives in the `readFile(path, id string)`
helper: a not-found read deletes the container's map entry and returns
an empty content with a nil error, after which `ReadStats` continues
with `statsHolder.stats[id].Memory.create(string(b))` — an index into
the map it just deleted from, so the method call goes through a nil
`*ContainerStats`.  The nil-pointer dereference (a Go runtime panic) is
modelled as the explicit outcome `RSErr.nilDeref`; a non-not-found read
error is `RSErr.ioErr`. -/

/-- How a `ReadStats` call can fail: by returning a read error, or by
dereferencing a nil entry pointer (a runtime panic in Go). -/
inductive RSErr where
  | ioErr
  | nilDeref
deriving DecidableEq, Repr

/-- The store type of part_002: `type Stats map[string]*ContainerStats`. -/
abbrev Stats := List (String × ContainerStats)

/-- Go map `delete(stats, id)`. -/
def eraseEntry {α : Type} (s : List (String × α)) (id : String) : List (String × α) :=
  s.filter (fun e => !(e.1 = id))

/-- Go `readFile(path, id string)` of part_002: on not-found it deletes
the entry from the store and returns empty content with no error; any
other error is returned; otherwise the content is returned. -/
def readFile (fs : FSModel) (s : Stats) (path id : String) :
    Except RSErr (String × Stats) :=
  match fs path with
  | .ok b => .ok (b, s)
  | .notFound => .ok ("", eraseEntry s id)
  | .otherErr => .error .ioErr

/-- One metric block of the `ReadStats` loop body: if the path is
bound, call `readFile`, propagate its error, then update the entry via
`stats[id].X.create(b)` — looking `id` up in the possibly-just-mutated
store; an absent entry is the nil dereference. -/
def statStage (fs : FSModel) (s : Stats) (id path : String)
    (upd : String → ContainerStats → ContainerStats) : Except RSErr Stats :=
  if path = "" then .ok s
  else
    match readFile fs s path id with
    | .error e => .error e
    | .ok (b, s') =>
        match lookupEntry s' id with
        | none => .error .nilDeref
        | some _ => .ok (updateEntry s' id (upd b))

/-- The `ReadStats` loop body for one entry: memory, CPU, block-I/O
bytes, block-I/O operation stages in source order. -/
def processEntryStats (fs : FSModel) (now : Nat) (s : Stats) (id : String)
    (cs : ContainerStats) : Except RSErr Stats :=
  match statStage fs s id cs.Memory.path
      (fun b c => { c with Memory := MemStat.create c.Memory now b }) with
  | .error e => .error e
  | .ok s =>
    match statStage fs s id cs.CPU.path
        (fun b c => { c with CPU := CPUStat.create c.CPU now b }) with
    | .error e => .error e
    | .ok s =>
      match statStage fs s id cs.Blk.Bytes.path
          (fun b c => { c with Blk := { c.Blk with Bytes := BlkServiced.create c.Blk.Bytes now b } }) with
      | .error e => .error e
      | .ok s =>
          statStage fs s id cs.Blk.IOPS.path
            (fun b c => { c with Blk := { c.Blk with IOPS := BlkServiced.create c.Blk.IOPS now b } })

/-- The `for id, cs := range statsHolder.stats` loop of part_002's
`ReadStats` over the evolving store. -/
def readStatsLoop (fs : FSModel) (now : Nat) :
    List (String × ContainerStats) → Stats → Except RSErr Stats
  | [], s => .ok s
  | (id, cs) :: rest, s =>
      match processEntryStats fs now s id cs with
      | .error e => .error e
      | .ok s' => readStatsLoop fs now rest s'

/-- Go `ReadStats` of part_002 (after the initialization check). -/
def ReadStats (fs : FSModel) (now : Nat) (s : Stats) : Except RSErr Stats :=
  readStatsLoop fs now s s

/-- This metric binding is either absent or its file reads fine. -/
def stageClean (fs : FSModel) (p : String) : Prop :=
  p = "" ∨ ∃ b, fs p = .ok b

/-- All four of the entry's bound files read fine. -/
def entryClean (fs : FSModel) (cs : ContainerStats) : Prop :=
  stageClean fs cs.Memory.path ∧ stageClean fs cs.CPU.path ∧
  stageClean fs cs.Blk.Bytes.path ∧ stageClean fs cs.Blk.IOPS.path

/-- Some bound file of the entry is missing, all bound files of the
earlier stages reading fine: the memory file, or the CPU file, or the
block-I/O byte file, or the block-I/O operation file. -/
def missingAt (fs : FSModel) (cs : ContainerStats) : Prop :=
  (cs.Memory.path ≠ "" ∧ fs cs.Memory.path = .notFound) ∨
  (stageClean fs cs.Memory.path ∧
    cs.CPU.path ≠ "" ∧ fs cs.CPU.path = .notFound) ∨
  (stageClean fs cs.Memory.path ∧ stageClean fs cs.CPU.path ∧
    cs.Blk.Bytes.path ≠ "" ∧ fs cs.Blk.Bytes.path = .notFound) ∨
  (stageClean fs cs.Memory.path ∧ stageClean fs cs.CPU.path ∧
    stageClean fs cs.Blk.Bytes.path ∧
    cs.Blk.IOPS.path ≠ "" ∧ fs cs.Blk.IOPS.path = .notFound)

/-- A deleted key is gone: looking it up right after `delete` fails. -/
theorem lookupEntry_eraseEntry {α : Type} (s : List (String × α)) (id : String) :
    lookupEntry (eraseEntry s id) id = none := by
  induction s with
  | nil => rfl
  | cons e rest ih =>
      by_cases h : e.1 = id
      · simpa [eraseEntry, List.filter, h] using ih
      · simpa [eraseEntry, List.filter, lookupEntry, h] using ih

theorem lookupEntry_isSome_of_mem {α : Type} {s : List (String × α)} {id : String}
    (h : id ∈ s.map Prod.fst) : ∃ v, lookupEntry s id = some v := by
  induction s with
  | nil => simp at h
  | cons e rest ih =>
      by_cases he : e.1 = id
      · exact ⟨e.2, by simp [lookupEntry, he]⟩
      · have : id ∈ rest.map Prod.fst := by
          simp only [List.map_cons, List.mem_cons] at h
          rcases h with h | h
          · exact absurd h.symm he
          · exact h
        obtain ⟨v, hv⟩ := ih this
        exact ⟨v, by simp [lookupEntry, he, hv]⟩

/-- A clean stage succeeds and preserves the key set. -/
theorem statStage_clean (fs : FSModel) (s : Stats) (id path : String)
    (upd : String → ContainerStats → ContainerStats)
    (hcl : stageClean fs path) (hid : id ∈ s.map Prod.fst) :
    ∃ s', statStage fs s id path upd = .ok s'
      ∧ s'.map Prod.fst = s.map Prod.fst := by
  by_cases hp : path = ""
  · exact ⟨s, by simp [statStage, hp], rfl⟩
  · rcases hcl with hpe | ⟨b, hb⟩
    · exact absurd hpe hp
    · obtain ⟨v, hv⟩ := lookupEntry_isSome_of_mem hid
      refine ⟨updateEntry s id (upd b), ?_, updateEntry_keys s id (upd b)⟩
      simp [statStage, hp, readFile, hb, hv]

/-- A stage whose bound file is missing evicts the entry and then
dereferences the vanished entry: the nil dereference. -/
theorem statStage_missing (fs : FSModel) (s : Stats) (id path : String)
    (upd : String → ContainerStats → ContainerStats)
    (hp : path ≠ "") (hnf : fs path = .notFound) :
    statStage fs s id path upd = .error .nilDeref := by
  simp [statStage, hp, readFile, hnf, lookupEntry_eraseEntry]

/-- A fully clean entry is processed successfully, preserving keys. -/
theorem processEntryStats_clean (fs : FSModel) (now : Nat) (s : Stats)
    (id : String) (cs : ContainerStats)
    (hcl : entryClean fs cs) (hid : id ∈ s.map Prod.fst) :
    ∃ s', processEntryStats fs now s id cs = .ok s'
      ∧ s'.map Prod.fst = s.map Prod.fst := by
  obtain ⟨h1, h2, h3, h4⟩ := hcl
  obtain ⟨t1, ht1, hk1⟩ := statStage_clean fs s id cs.Memory.path
    (fun b c => { c with Memory := MemStat.create c.Memory now b }) h1 hid
  obtain ⟨t2, ht2, hk2⟩ := statStage_clean fs t1 id cs.CPU.path
    (fun b c => { c with CPU := CPUStat.create c.CPU now b }) h2 (hk1 ▸ hid)
  obtain ⟨t3, ht3, hk3⟩ := statStage_clean fs t2 id cs.Blk.Bytes.path
    (fun b c => { c with Blk := { c.Blk with Bytes := BlkServiced.create c.Blk.Bytes now b } }) h3 (hk2 ▸ hk1 ▸ hid)
  obtain ⟨t4, ht4, hk4⟩ := statStage_clean fs t3 id cs.Blk.IOPS.path
    (fun b c => { c with Blk := { c.Blk with IOPS := BlkServiced.create c.Blk.IOPS now b } }) h4 (hk3 ▸ hk2 ▸ hk1 ▸ hid)
  refine ⟨t4, ?_, by rw [hk4, hk3, hk2, hk1]⟩
  simp [processEntryStats, ht1, ht2, ht3, ht4]

/-- An entry with a vanished bound file makes the loop body reach the
nil dereference. -/
theorem processEntryStats_missing (fs : FSModel) (now : Nat) (s : Stats)
    (id : String) (cs : ContainerStats)
    (hmiss : missingAt fs cs) (hid : id ∈ s.map Prod.fst) :
    processEntryStats fs now s id cs = .error .nilDeref := by
  rcases hmiss with ⟨hp, hnf⟩ | ⟨h1, hp, hnf⟩ | ⟨h1, h2, hp, hnf⟩ | ⟨h1, h2, h3, hp, hnf⟩
  · simp [processEntryStats,
      statStage_missing fs s id cs.Memory.path (fun b c => { c with Memory := MemStat.create c.Memory now b }) hp hnf]
  · obtain ⟨t1, ht1, hk1⟩ := statStage_clean fs s id cs.Memory.path
      (fun b c => { c with Memory := MemStat.create c.Memory now b }) h1 hid
    simp [processEntryStats, ht1,
      statStage_missing fs t1 id cs.CPU.path (fun b c => { c with CPU := CPUStat.create c.CPU now b }) hp hnf]
  · obtain ⟨t1, ht1, hk1⟩ := statStage_clean fs s id cs.Memory.path
      (fun b c => { c with Memory := MemStat.create c.Memory now b }) h1 hid
    obtain ⟨t2, ht2, hk2⟩ := statStage_clean fs t1 id cs.CPU.path
      (fun b c => { c with CPU := CPUStat.create c.CPU now b }) h2 (hk1 ▸ hid)
    simp [processEntryStats, ht1, ht2,
      statStage_missing fs t2 id cs.Blk.Bytes.path (fun b c => { c with Blk := { c.Blk with Bytes := BlkServiced.create c.Blk.Bytes now b } }) hp hnf]
  · obtain ⟨t1, ht1, hk1⟩ := statStage_clean fs s id cs.Memory.path
      (fun b c => { c with Memory := MemStat.create c.Memory now b }) h1 hid
    obtain ⟨t2, ht2, hk2⟩ := statStage_clean fs t1 id cs.CPU.path
      (fun b c => { c with CPU := CPUStat.create c.CPU now b }) h2 (hk1 ▸ hid)
    obtain ⟨t3, ht3, hk3⟩ := statStage_clean fs t2 id cs.Blk.Bytes.path
      (fun b c => { c with Blk := { c.Blk with Bytes := BlkServiced.create c.Blk.Bytes now b } }) h3 (hk2 ▸ hk1 ▸ hid)
    simp [processEntryStats, ht1, ht2, ht3,
      statStage_missing fs t3 id cs.Blk.IOPS.path (fun b c => { c with Blk := { c.Blk with IOPS := BlkServiced.create c.Blk.IOPS now b } }) hp hnf]

/-- Processing a clean prefix of the iteration reaches the rest of the
entries with the key set intact. -/
theorem readStatsLoop_clean_prefix (fs : FSModel) (now : Nat) :
    ∀ (s1 rest : List (String × ContainerStats)) (s : Stats),
      (∀ e ∈ s1, entryClean fs e.2) → (∀ e ∈ s1, e.1 ∈ s.map Prod.fst) →
      ∃ s', readStatsLoop fs now (s1 ++ rest) s = readStatsLoop fs now rest s'
        ∧ s'.map Prod.fst = s.map Prod.fst := by
  intro s1
  induction s1 with
  | nil => intro rest s _ _; exact ⟨s, rfl, rfl⟩
  | cons e s1 ih =>
      intro rest s hcl hkeys
      obtain ⟨id, cs⟩ := e
      obtain ⟨t, ht, hk⟩ := processEntryStats_clean fs now s id cs
        (hcl (id, cs) (by simp)) (hkeys (id, cs) (by simp))
      obtain ⟨s', hs', hk'⟩ := ih rest t (fun x hx => hcl x (by simp [hx]))
        (fun x hx => hk ▸ hkeys x (by simp [hx]))
      refine ⟨s', ?_, by rw [hk', hk]⟩
      simp only [List.cons_append, readStatsLoop, ht]
      exact hs'

/-- C10.  In part_002's `ReadStats`: (a) `readFile` on a missing file
deletes the container's entry and returns empty content with no error,
after which the just-deleted key no longer resolves; (b) consequently,
for every store in which some container's bound memory (or CPU, or
block-I/O) file is missing — the entries iterated before it reading
fine — `ReadStats` reaches the nil dereference (a Go panic) instead of
continuing to the next container. -/
theorem claim_C10 :
    (∀ (fs : FSModel) (s : Stats) (p id : String),
       fs p = .notFound →
       readFile fs s p id = .ok ("", eraseEntry s id) ∧
       lookupEntry (eraseEntry s id) id = none)
    ∧
    (∀ (fs : FSModel) (now : Nat) (s1 s2 : List (String × ContainerStats))
       (id : String) (cs : ContainerStats),
       (∀ e ∈ s1, entryClean fs e.2) → missingAt fs cs →
       ReadStats fs now (s1 ++ (id, cs) :: s2) = .error .nilDeref) := by
  constructor
  · intro fs s p id hnf
    exact ⟨by simp [readFile, hnf], lookupEntry_eraseEntry s id⟩
  · intro fs now s1 s2 id cs hcl hmiss
    obtain ⟨s', hs', hk⟩ := readStatsLoop_clean_prefix fs now s1 ((id, cs) :: s2)
      (s1 ++ (id, cs) :: s2) hcl
      (fun e he => by
        simp only [List.map_append, List.mem_append]
        exact Or.inl (List.mem_map.mpr ⟨e, he, rfl⟩))
    have hid : id ∈ s'.map Prod.fst := by
      rw [hk]
      simp
    show readStatsLoop fs now (s1 ++ (id, cs) :: s2) (s1 ++ (id, cs) :: s2) = _
    rw [hs']
    simp only [readStatsLoop, processEntryStats_missing fs now s' id cs hmiss hid]

/-- Witness for C10: one container whose bound memory file has
vanished; the call dereferences the evicted entry. -/
theorem claim_C10_witness :
    readFile (fun p => if p = "m" then .notFound else .ok "") [] "m" "c1"
      = .ok ("", eraseEntry ([] : Stats) "c1") ∧
    ReadStats (fun p => if p = "m" then .notFound else .ok "") 0
        [("c1", { ContainerStats.empty with Memory := ⟨"m", 0, 0, 0⟩ })]
      = .error .nilDeref :=
  ⟨(claim_C10.1 (fun p => if p = "m" then .notFound else .ok "") [] "m" "c1"
      (by simp)).1,
   claim_C10.2 (fun p => if p = "m" then .notFound else .ok "") 0 []
     [] "c1" { ContainerStats.empty with Memory := ⟨"m", 0, 0, 0⟩ }
     (fun e he => by simp at he)
     (Or.inl ⟨by simp, by simp⟩)⟩

end Gocstat
